import Mathlib

/-!
Shallow embedding of the EOG event-detection script (src/EOG程式.py).

Times are rationals: the script builds the time column as i * 0.002 and all
constants (0.002, 0.4, 0.5, 0.05) are exactly representable; in particular
25 * 0.002 == 0.05 holds exactly in binary64 just as in ℚ, so the rational
model agrees with the float execution on every comparison exercised here.

Smoothed samples are Option ℚ: pandas' centered rolling mean yields NaN at
the edge positions, and every NaN comparison in Python is False, which is
the behaviour of the optAbsGe / optAbsLe / optGt helpers on none.
-/

namespace EOG

/-- Sampling interval: the script assumes each data point is 0.002 s apart. -/
def timeInterval : ℚ := 1/500

/-- Smoothing window size used by analyze_and_plot. -/
def windowSize : ℕ := 15

/-- Duration threshold distinguishing a blink from an action potential (0.4 s). -/
def thresholdDuration : ℚ := 2/5

/-- Cooldown after an event ends (0.5 s). -/
def cooldownTime : ℚ := 1/2

/-- Fixed backward correction applied to the end time (0.05 s). -/
def timeAdvance : ℚ := 1/20

/-- Centered moving average, the model of pandas
rolling(window, center=True).mean() for an odd window: position i averages
the window of indices i-h .. i+h where h = (w-1)/2, and positions whose
window runs past either end of the data are missing (none). -/
def movingAverage (data : List ℚ) (w : ℕ) : List (Option ℚ) :=
  (List.range data.length).map (fun i =>
    if (w - 1) / 2 ≤ i ∧ i + (w - 1) / 2 < data.length then
      some ((((data.drop (i - (w - 1) / 2)).take w).sum) / (w : ℚ))
    else none)

/-- Python comparison abs(x - base) >= thr where x may be NaN (none):
a NaN comparison is False. -/
def optAbsGe (x? : Option ℚ) (base thr : ℚ) : Bool :=
  match x? with
  | none => false
  | some x => decide (thr ≤ |x - base|)

/-- Python comparison abs(x - base) <= thr where x may be NaN (none). -/
def optAbsLe (x? : Option ℚ) (base thr : ℚ) : Bool :=
  match x? with
  | none => false
  | some x => decide (|x - base| ≤ thr)

/-- Python comparison x > b where x may be NaN (none). -/
def optGt (x? : Option ℚ) (b : ℚ) : Bool :=
  match x? with
  | none => false
  | some x => decide (b < x)

/-- Which channel triggered the currently open event. -/
inductive Trig where
  | vertical
  | horizontal
deriving DecidableEq, Repr

/-- Baselines and trigger magnitudes read from the first row. -/
structure Params where
  vBase : ℚ
  hBase : ℚ
  vThr : ℚ
  hThr : ℚ
deriving DecidableEq, Repr

/-- One emitted event: (start_time, end_time, event_type, direction). -/
structure Event where
  start : ℚ
  stop : ℚ
  kind : String
  direction : Option String
deriving DecidableEq, Repr

/-- Detector loop state: the open event (its start time and triggering
channel) if any, the last event end time if any, and the emitted events. -/
structure DetState where
  inEvent : Option (ℚ × Trig)
  lastEnd : Option ℚ
  events : List Event
deriving DecidableEq, Repr

/-- Index of the sample whose time i * timeInterval is closest to the target,
first occurrence on ties: the model of (data.time - t).abs().argmin(). -/
def nearestIdx (n : ℕ) (target : ℚ) : ℕ :=
  (List.range n).foldl
    (fun (best i : ℕ) =>
      if |(i : ℚ) * timeInterval - target| < |(best : ℚ) * timeInterval - target|
      then i else best) 0

/-- Event record built when a horizontal-triggered event closes at time t. -/
def mkHorizontalEvent (p : Params) (smoothH : List (Option ℚ)) (n : ℕ)
    (s t : ℚ) : Event :=
  let endTime := t - timeAdvance
  let endH := smoothH.getD (nearestIdx n endTime) none
  { start := s, stop := endTime, kind := "Action potential",
    direction := some ("Horizontal: " ++
      (if optGt endH p.hBase then "Looking left" else "Looking right")) }

/-- Event record built when a vertical-triggered event closes at time t. -/
def mkVerticalEvent (p : Params) (smoothV smoothH : List (Option ℚ)) (n : ℕ)
    (s t : ℚ) : Event :=
  let endTime := t - timeAdvance
  let j := nearestIdx n endTime
  let endV := smoothV.getD j none
  let endH := smoothH.getD j none
  if endTime - s ≤ thresholdDuration then
    { start := s, stop := endTime, kind := "Blink", direction := none }
  else
    let dir0 := "Vertical: " ++
      (if optGt endV p.vBase then "Looking up" else "Looking down")
    let dir := if optAbsGe endH p.hBase p.hThr then
        dir0 ++ ", Horizontal: " ++
          (if optGt endH p.hBase then "Looking left" else "Looking right")
      else dir0
    { start := s, stop := endTime, kind := "Action potential",
      direction := some dir }

/-- Python guard `if last_event_end_time and current_time < last + cooldown`:
last_event_end_time is truthy only when it is set and nonzero. -/
def cooldownActive (lastEnd : Option ℚ) (t : ℚ) : Bool :=
  match lastEnd with
  | none => false
  | some e => decide (e ≠ 0) && decide (t < e + cooldownTime)

/-- One iteration of the detection loop at sample index i. -/
def detectStep (p : Params) (smoothV smoothH : List (Option ℚ))
    (st : DetState) (i : ℕ) : DetState :=
  let t := (i : ℚ) * timeInterval
  let v := smoothV.getD i none
  let h := smoothH.getD i none
  if cooldownActive st.lastEnd t then st
  else if optAbsGe v p.vBase p.vThr || optAbsGe h p.hBase (3 * p.hThr) then
    match st.inEvent with
    | none =>
        { st with inEvent := some (t,
            if optAbsGe h p.hBase (3 * p.hThr) then Trig.horizontal
            else Trig.vertical) }
    | some _ => st
  else
    match st.inEvent with
    | none => st
    | some (s, Trig.horizontal) =>
        if optAbsLe h p.hBase (3 * p.hThr) then
          let ev := mkHorizontalEvent p smoothH smoothV.length s t
          { inEvent := none, lastEnd := some ev.stop,
            events := st.events ++ [ev] }
        else st
    | some (s, Trig.vertical) =>
        if optAbsLe v p.vBase (3 * p.vThr) then
          let ev := mkVerticalEvent p smoothV smoothH smoothV.length s t
          { inEvent := none, lastEnd := some ev.stop,
            events := st.events ++ [ev] }
        else st

/-- The whole detection loop over all sample indices. -/
def runDetect (p : Params) (smoothV smoothH : List (Option ℚ)) : DetState :=
  (List.range smoothV.length).foldl (detectStep p smoothV smoothH)
    { inEvent := none, lastEnd := none, events := [] }

/-- Horizontal trigger extraction from the first row: the script keeps the
smaller of the two raw first-row peak values. -/
def horizontalTrigger (hNeg hPos : ℚ) : ℚ :=
  if hNeg < hPos then hNeg else hPos

/-- An input table: raw column names as read from the file, the two raw
signal columns, and the first-row auxiliary fields the script reads. -/
structure InputTable where
  columns : List String
  voltage : List ℚ
  voltage0 : List ℚ
  vDC : ℚ
  hDC : ℚ
  vPos : ℚ
  hNeg : ℚ
  hPos : ℚ

/-- The seven required (already-normalized) column names. -/
def requiredColumns : List String :=
  ["voltage", "voltage_0",
   "voltage (dc voltage)", "voltage_0 (dc voltage)",
   "voltage (positive peak)", "voltage_0 (negative peak)",
   "voltage_0 (positive peak)"]

/-- Column-name normalization: strip whitespace, lowercase. -/
def normalizeCol (s : String) : String := s.trim.toLower

/-- Single-quote character, written by code point. -/
def sq : String := String.mk [Char.ofNat 39]

/-- Python repr of a list of strings, as an f-string renders it. -/
def pyListRepr (xs : List String) : String :=
  "[" ++ String.intercalate ", " (xs.map (fun s => sq ++ s ++ sq)) ++ "]"

/-- The ValueError message raised on missing columns (Fore.RED prefix plus
the f-string interpolation of the required-columns list). -/
def missingColumnsMessage : String :=
  "\x1b[31m" ++ "Excel file is missing required columns: " ++
    pyListRepr requiredColumns

/-- Decidable substring test on strings. -/
def strContainsSub (s sub : String) : Bool :=
  (List.range (s.data.length + 1)).any
    (fun i => (s.data.drop i).take sub.data.length == sub.data)

/-- Baselines and thresholds read from the first row of the table. -/
def paramsOf (tbl : InputTable) : Params :=
  { vBase := tbl.vDC, hBase := tbl.hDC, vThr := tbl.vPos,
    hThr := horizontalTrigger tbl.hNeg tbl.hPos }

/-- The analysis pipeline of analyze_and_plot, from the parsed table to the
emitted event list: normalize column names, validate them (raising before
any detection logic), smooth both channels, extract baselines and triggers
from the first row, and run the detection loop. -/
def analyze (tbl : InputTable) : Except String (List Event) :=
  let cols := tbl.columns.map normalizeCol
  if requiredColumns.all (fun c => cols.contains c) then
    let smoothV := movingAverage tbl.voltage windowSize
    let smoothH := movingAverage tbl.voltage0 windowSize
    Except.ok (runDetect (paramsOf tbl) smoothV smoothH).events
  else
    Except.error missingColumnsMessage

deriving instance DecidableEq for Except

/-- Input used against C1: one vertical excursion (raw voltage 15 at sample
0) whose smoothed trace returns to baseline at sample 8, while the
horizontal channel is pushed past 3x its trigger at exactly sample 8. -/
def tblC1 : InputTable :=
  { columns := requiredColumns,
    voltage := [15] ++ List.replicate 16 0,
    voltage0 := List.replicate 15 0 ++ [45, -45],
    vDC := 0, hDC := 0, vPos := 1, hNeg := 1, hPos := 2 }

/-- Input used against C2: one horizontal excursion (raw voltage_0 of 45 at
sample 0) whose smoothed trace returns to baseline at sample 8, while the
vertical channel exceeds its trigger at exactly sample 8. -/
def tblC2 : InputTable :=
  { columns := requiredColumns,
    voltage := List.replicate 15 0 ++ [15, -15],
    voltage0 := [45] ++ List.replicate 16 0,
    vDC := 0, hDC := 0, vPos := 1, hNeg := 1, hPos := 2 }

/-- Input used against C9: both channels cross their entry thresholds
simultaneously at sample 7. -/
def tblC9 : InputTable :=
  { columns := requiredColumns,
    voltage := [15] ++ List.replicate 15 0,
    voltage0 := [45] ++ List.replicate 15 0,
    vDC := 0, hDC := 0, vPos := 1, hNeg := 1, hPos := 2 }

/-- Input used against C4: a 16-row table whose single vertical deflection
opens at sample 7 and closes at sample 8, so end_time = 8·0.002 − 0.05 lies
before start_time = 7·0.002. -/
def tbl16 : InputTable :=
  { columns := requiredColumns,
    voltage := [15] ++ List.replicate 15 0,
    voltage0 := List.replicate 16 0,
    vDC := 0, hDC := 0, vPos := 1, hNeg := 1, hPos := 2 }

/-- Input exhibiting the cooldown truthiness bug: the first deflection
(raw voltage 15 at sample 17) closes at sample 25, whose time is exactly
0.05 s, so end_time = 0.05 − 0.05 = 0; the second deflection (raw voltage
15 at sample 45) follows 0.076 s later. In binary64 the script computes
25 * 0.002 == 0.05 exactly, so the Python run hits end_time == 0.0 too. -/
def tbl61 : InputTable :=
  { columns := requiredColumns,
    voltage := List.replicate 17 0 ++ [15] ++ List.replicate 27 0 ++ [15] ++
      List.replicate 15 0,
    voltage0 := List.replicate 61 0,
    vDC := 0, hDC := 0, vPos := 1, hNeg := 1, hPos := 2 }

/-- The single event emitted on tbl16. -/
def ev16 : Event :=
  { start := 7/500, stop := -17/500, kind := "Blink", direction := none }

section Helpers

/-- Closed form for indexing into the moving average. -/
lemma movingAverage_getD (data : List ℚ) (w i : ℕ) :
    (movingAverage data w).getD i none =
      if (w - 1) / 2 ≤ i ∧ i + (w - 1) / 2 < data.length then
        some ((((data.drop (i - (w - 1) / 2)).take w).sum) / (w : ℚ))
      else none := by
  unfold movingAverage
  rcases Nat.lt_or_ge i data.length with hlt | hge
  · rw [List.getD_eq_getElem?_getD, List.getElem?_map, List.getElem?_range hlt]
    simp
  · have h1 : (List.range data.length).length ≤ i := by
      simpa [List.length_range] using hge
    rw [List.getD_eq_getElem?_getD, List.getElem?_map,
      List.getElem?_eq_none (by simpa [List.length_range] using hge)]
    have : ¬ ((w - 1) / 2 ≤ i ∧ i + (w - 1) / 2 < data.length) := by
      rintro ⟨-, h2⟩
      omega
    simp [this]

/-- The moving average is missing at index i unless the centered window fits. -/
lemma movingAverage_getD_some (data : List ℚ) (w i : ℕ) (x : ℚ)
    (h : (movingAverage data w).getD i none = some x) :
    (w - 1) / 2 ≤ i ∧ i + (w - 1) / 2 < data.length := by
  rw [movingAverage_getD] at h
  by_contra hc
  simp [hc] at h

/-- A list's sum as a sum over positions. -/
lemma list_sum_eq_range (l : List ℚ) :
    l.sum = ∑ k in Finset.range l.length, l.getD k 0 := by
  induction l with
  | nil => simp
  | cons x xs ih =>
      simp only [List.sum_cons, List.length_cons, Finset.sum_range_succ']
      simp only [List.getD_cons_succ, List.getD_cons_zero, ← ih]
      ring

/-- The sum of a window of the data, as a sum of indexed entries. -/
lemma window_sum (data : List ℚ) (a w : ℕ) (hb : a + w ≤ data.length) :
    ((data.drop a).take w).sum = ∑ k in Finset.range w, data.getD (a + k) 0 := by
  have hlen : ((data.drop a).take w).length = w := by
    rw [List.length_take, List.length_drop]
    omega
  rw [list_sum_eq_range, hlen]
  refine Finset.sum_congr rfl (fun k hk => ?_)
  have hkw : k < w := Finset.mem_range.mp hk
  rw [List.getD_eq_getElem?_getD, List.getD_eq_getElem?_getD]
  simp [List.getElem?_take, hkw, List.getElem?_drop]

@[simp] lemma mkVerticalEvent_start (p : Params) (V H : List (Option ℚ))
    (n : ℕ) (s t : ℚ) : (mkVerticalEvent p V H n s t).start = s := by
  simp only [mkVerticalEvent]
  split <;> rfl

@[simp] lemma mkVerticalEvent_stop (p : Params) (V H : List (Option ℚ))
    (n : ℕ) (s t : ℚ) : (mkVerticalEvent p V H n s t).stop = t - timeAdvance := by
  simp only [mkVerticalEvent]
  split <;> rfl

@[simp] lemma mkHorizontalEvent_start (p : Params) (H : List (Option ℚ))
    (n : ℕ) (s t : ℚ) : (mkHorizontalEvent p H n s t).start = s := rfl

@[simp] lemma mkHorizontalEvent_stop (p : Params) (H : List (Option ℚ))
    (n : ℕ) (s t : ℚ) : (mkHorizontalEvent p H n s t).stop = t - timeAdvance := rfl

end Helpers

/-- C3 counterexample: the claim says the extracted horizontal trigger is the
minimum of the two peak magnitudes (absolute values). On first-row fields
negative peak = -2 and positive peak = 1 the script compares the raw values
and keeps -2, while the minimum of the magnitudes is 1. -/
theorem horizontal_trigger_not_abs_min :
    horizontalTrigger (-2) 1 ≠ min |(-2 : ℚ)| |(1 : ℚ)| := by
  decide

/-- C3 amended: the horizontal trigger extracted from the first row is the
minimum of the two raw first-row peak fields (not of their absolute
values): the script keeps the negative-peak field whenever it is the
smaller raw value. -/
theorem horizontal_trigger_raw_min (a b : ℚ) :
    horizontalTrigger a b = min a b := by
  unfold horizontalTrigger
  rcases lt_trichotomy a b with h | h | h
  · rw [if_pos h, min_eq_left h.le]
  · subst h
    simp
  · rw [if_neg (by linarith), min_eq_right h.le]

set_option maxRecDepth 4000 in
/-- C7: if any of the seven required column names is absent from the
normalized (trimmed, lowercased) column list, the analysis stops with the
configuration error whose message lists all seven required names, before
any detection logic runs, so no event list is produced. -/
theorem missing_columns_error (tbl : InputTable)
    (h : ∃ c ∈ requiredColumns, c ∉ tbl.columns.map normalizeCol) :
    analyze tbl = Except.error missingColumnsMessage ∧
    ∀ c ∈ requiredColumns, strContainsSub missingColumnsMessage c = true := by
  obtain ⟨c, hc, hnot⟩ := h
  have hall : (requiredColumns.all
      (fun x => (tbl.columns.map normalizeCol).contains x)) = false := by
    by_contra hcon
    have htrue : (requiredColumns.all
        (fun x => (tbl.columns.map normalizeCol).contains x)) = true := by
      revert hcon
      cases requiredColumns.all (fun x => (tbl.columns.map normalizeCol).contains x) <;> simp
    rw [List.all_eq_true] at htrue
    have hmem := htrue c hc
    simp only [List.contains_eq_any_beq, List.any_beq] at hmem
    exact hnot hmem
  refine ⟨?_, by decide⟩
  simp only [analyze, hall, Bool.false_eq_true, if_false]

/-- C7 witness: a table with no columns at all is rejected with the
required-columns message. -/
theorem missing_columns_error_witness :
    (∃ c ∈ requiredColumns, c ∉ ([] : List String).map normalizeCol) ∧
    analyze { columns := [], voltage := [], voltage0 := [],
              vDC := 0, hDC := 0, vPos := 0, hNeg := 0, hPos := 0 } =
      Except.error missingColumnsMessage :=
  ⟨⟨"voltage", by decide, by simp⟩,
   (missing_columns_error _ ⟨"voltage", by decide, by simp⟩).1⟩

/-- C8: for an odd window w = 2h+1, the smoother keeps the sequence length;
at every position whose centered window of indices i-h .. i+h fits, the
output is the arithmetic mean of the inputs in that window; every other
position is missing; and smoothing a constant sequence gives the constant
back at every non-edge position. -/
theorem movingAverage_centered_mean (data : List ℚ) (w h : ℕ)
    (hw : w = 2 * h + 1) :
    (movingAverage data w).length = data.length ∧
    (∀ i, h ≤ i → i + h < data.length →
      (movingAverage data w).getD i none =
        some ((∑ k in Finset.Icc (i - h) (i + h), data.getD k 0) / (w : ℚ))) ∧
    (∀ i, ¬(h ≤ i ∧ i + h < data.length) →
      (movingAverage data w).getD i none = none) ∧
    (∀ n c i, h ≤ i → i + h < n →
      (movingAverage (List.replicate n c) w).getD i none = some c) := by
  have hh : (w - 1) / 2 = h := by omega
  refine ⟨?_, ?_, ?_, ?_⟩
  · simp [movingAverage]
  · intro i hi1 hi2
    rw [movingAverage_getD, hh, if_pos ⟨hi1, hi2⟩]
    have hbound : (i - h) + w ≤ data.length := by omega
    rw [window_sum data (i - h) w hbound]
    rw [← Nat.Ico_succ_right, Finset.sum_Ico_eq_sum_range]
    have hcard : i + h + 1 - (i - h) = w := by omega
    rw [hcard]
  · intro i hi
    rw [movingAverage_getD, hh, if_neg hi]
  · intro n c i hi1 hi2
    have hcond : h ≤ i ∧ i + h < (List.replicate n c).length := by
      simpa [List.length_replicate] using ⟨hi1, hi2⟩
    rw [movingAverage_getD, hh, if_pos hcond]
    rw [List.drop_replicate, List.take_replicate]
    have hmin : min w (n - (i - h)) = w := by omega
    rw [hmin, List.sum_replicate]
    have hw0 : (w : ℚ) ≠ 0 := by
      have : 0 < w := by omega
      exact_mod_cast this.ne'
    rw [nsmul_eq_mul, mul_div_cancel_left₀ _ hw0]

/-- C8 witness: window 3 on the sequence 1,2,3 averages the middle window,
and a constant sequence is preserved away from the edges. -/
theorem movingAverage_centered_mean_witness :
    (3 = 2 * 1 + 1) ∧
    (movingAverage ([1, 2, 3] : List ℚ) 3).getD 1 none =
      some ((∑ k in Finset.Icc (1 - 1) (1 + 1),
        ([1, 2, 3] : List ℚ).getD k 0) / ((3 : ℕ) : ℚ)) ∧
    (movingAverage (List.replicate 5 (7 : ℚ)) 3).getD 2 none = some 7 :=
  ⟨rfl,
   (movingAverage_centered_mean ([1, 2, 3] : List ℚ) 3 1 rfl).2.1 1
     (by decide) (by decide),
   (movingAverage_centered_mean ([1, 2, 3] : List ℚ) 3 1 rfl).2.2.2 5 7 2
     (by decide) (by decide)⟩

/-- C1 counterexample: on tblC1 a vertical-triggered event is open at
sample 8, no cooldown is pending, the smoothed vertical is exactly at
baseline there (so the claimed exit inequality holds with margin), yet the
run's only event closes at sample 9 (stop = 9·interval − advance = −4/125,
not 8·interval − advance = −17/500): the horizontal channel being at
3x its trigger at sample 8 kept the event open, so the exit decision is
not a function of the vertical channel alone. -/
theorem vertical_exit_ignores_horizontal_cex :
    analyze tblC1 = Except.ok
      [{ start := 7/500, stop := -4/125, kind := "Blink", direction := none }] ∧
    (movingAverage tblC1.voltage windowSize).getD 8 none = some 0 ∧
    optAbsLe ((movingAverage tblC1.voltage windowSize).getD 8 none)
      tblC1.vDC (3 * tblC1.vPos) = true ∧
    optAbsGe ((movingAverage tblC1.voltage0 windowSize).getD 8 none)
      tblC1.hDC (3 * (paramsOf tblC1).hThr) = true ∧
    (-4 : ℚ)/125 ≠ ((8 : ℕ) : ℚ) * timeInterval - timeAdvance := by
  decide!

/-- C1 amended: a vertical-triggered open event closes at a non-cooldown
sample exactly when the whole entry condition has failed there (vertical
strictly inside 1x its trigger AND horizontal strictly inside 3x its
trigger, missing values failing both) and the 3x vertical exit inequality
holds; the exit therefore depends on the horizontal channel as well. -/
theorem vertical_exit_condition (p : Params) (V H : List (Option ℚ))
    (s : ℚ) (le : Option ℚ) (evs : List Event) (i : ℕ)
    (hcool : cooldownActive le ((i : ℚ) * timeInterval) = false) :
    (detectStep p V H ⟨some (s, Trig.vertical), le, evs⟩ i).inEvent = none ↔
      (optAbsGe (V.getD i none) p.vBase p.vThr = false ∧
       optAbsGe (H.getD i none) p.hBase (3 * p.hThr) = false ∧
       optAbsLe (V.getD i none) p.vBase (3 * p.vThr) = true) := by
  cases hV : optAbsGe (V[i]?.getD none) p.vBase p.vThr with
  | true => simp [detectStep, hcool, List.getD_eq_getElem?_getD, hV]
  | false =>
    cases hH : optAbsGe (H[i]?.getD none) p.hBase (3 * p.hThr) with
    | true => simp [detectStep, hcool, List.getD_eq_getElem?_getD, hV, hH]
    | false =>
      cases hL : optAbsLe (V[i]?.getD none) p.vBase (3 * p.vThr) with
      | true => simp [detectStep, hcool, List.getD_eq_getElem?_getD, hV, hH, hL]
      | false => simp [detectStep, hcool, List.getD_eq_getElem?_getD, hV, hH, hL]

/-- C1 amended witness: with the vertical channel back at baseline but the
horizontal channel at 10 (beyond 3x trigger 1), the open vertical event
does not close. -/
theorem vertical_exit_condition_witness :
    cooldownActive none (((0 : ℕ) : ℚ) * timeInterval) = false ∧
    ((detectStep ⟨0, 0, 1, 1⟩ [some 0] [some 10]
        ⟨some (0, Trig.vertical), none, []⟩ 0).inEvent = none ↔
      (optAbsGe ([some (0 : ℚ)].getD 0 none) 0 1 = false ∧
       optAbsGe ([some (10 : ℚ)].getD 0 none) 0 (3 * 1) = false ∧
       optAbsLe ([some (0 : ℚ)].getD 0 none) 0 (3 * 1) = true)) :=
  ⟨rfl, vertical_exit_condition ⟨0, 0, 1, 1⟩ [some 0] [some 10] 0 none [] 0 rfl⟩

/-- C2 counterexample: on tblC2 a horizontal-triggered event is open at
sample 8, no cooldown is pending, the smoothed horizontal is exactly at
baseline there (the claimed exit inequality holds), yet the run's only
event closes at sample 9 (stop = −4/125, not 8·interval − advance):
the vertical channel being at its 1x trigger at sample 8 kept the event
open, so the exit decision is not a function of the horizontal channel
alone. -/
theorem horizontal_exit_ignores_vertical_cex :
    analyze tblC2 = Except.ok
      [{ start := 7/500, stop := -4/125, kind := "Action potential",
         direction := some "Horizontal: Looking right" }] ∧
    (movingAverage tblC2.voltage0 windowSize).getD 8 none = some 0 ∧
    optAbsLe ((movingAverage tblC2.voltage0 windowSize).getD 8 none)
      tblC2.hDC (3 * (paramsOf tblC2).hThr) = true ∧
    optAbsGe ((movingAverage tblC2.voltage windowSize).getD 8 none)
      tblC2.vDC tblC2.vPos = true ∧
    (-4 : ℚ)/125 ≠ ((8 : ℕ) : ℚ) * timeInterval - timeAdvance := by
  decide!

/-- C2 amended: a horizontal-triggered open event closes at a non-cooldown
sample exactly when the whole entry condition has failed there (vertical
strictly inside 1x its trigger AND horizontal strictly inside 3x its
trigger, missing values failing both) and the 3x horizontal exit
inequality holds; the exit therefore depends on the vertical channel as
well. -/
theorem horizontal_exit_condition (p : Params) (V H : List (Option ℚ))
    (s : ℚ) (le : Option ℚ) (evs : List Event) (i : ℕ)
    (hcool : cooldownActive le ((i : ℚ) * timeInterval) = false) :
    (detectStep p V H ⟨some (s, Trig.horizontal), le, evs⟩ i).inEvent = none ↔
      (optAbsGe (V.getD i none) p.vBase p.vThr = false ∧
       optAbsGe (H.getD i none) p.hBase (3 * p.hThr) = false ∧
       optAbsLe (H.getD i none) p.hBase (3 * p.hThr) = true) := by
  cases hV : optAbsGe (V[i]?.getD none) p.vBase p.vThr with
  | true => simp [detectStep, hcool, List.getD_eq_getElem?_getD, hV]
  | false =>
    cases hH : optAbsGe (H[i]?.getD none) p.hBase (3 * p.hThr) with
    | true => simp [detectStep, hcool, List.getD_eq_getElem?_getD, hV, hH]
    | false =>
      cases hL : optAbsLe (H[i]?.getD none) p.hBase (3 * p.hThr) with
      | true => simp [detectStep, hcool, List.getD_eq_getElem?_getD, hV, hH, hL]
      | false => simp [detectStep, hcool, List.getD_eq_getElem?_getD, hV, hH, hL]

/-- C2 amended witness: with the horizontal channel back at baseline but
the vertical channel at 5 (beyond trigger 1), the open horizontal event
does not close. -/
theorem horizontal_exit_condition_witness :
    cooldownActive none (((0 : ℕ) : ℚ) * timeInterval) = false ∧
    ((detectStep ⟨0, 0, 1, 1⟩ [some 5] [some 0]
        ⟨some (0, Trig.horizontal), none, []⟩ 0).inEvent = none ↔
      (optAbsGe ([some (5 : ℚ)].getD 0 none) 0 1 = false ∧
       optAbsGe ([some (0 : ℚ)].getD 0 none) 0 (3 * 1) = false ∧
       optAbsLe ([some (0 : ℚ)].getD 0 none) 0 (3 * 1) = true)) :=
  ⟨rfl, horizontal_exit_condition ⟨0, 0, 1, 1⟩ [some 5] [some 0] 0 none [] 0 rfl⟩

/-- C9 counterexample: on tblC9 both entry conditions hold at sample 7, and
the recorded triggering channel after processing that sample is
horizontal, not vertical as the claim states; consequently the emitted
event is a horizontal-style Action potential instead of a Blink. -/
theorem entry_both_channels_horizontal_cex :
    optAbsGe ((movingAverage tblC9.voltage windowSize).getD 7 none)
      tblC9.vDC tblC9.vPos = true ∧
    optAbsGe ((movingAverage tblC9.voltage0 windowSize).getD 7 none)
      tblC9.hDC (3 * (paramsOf tblC9).hThr) = true ∧
    ((List.range 8).foldl
        (detectStep (paramsOf tblC9)
          (movingAverage tblC9.voltage windowSize)
          (movingAverage tblC9.voltage0 windowSize))
        ⟨none, none, []⟩).inEvent = some (7/500, Trig.horizontal) ∧
    analyze tblC9 = Except.ok
      [{ start := 7/500, stop := -17/500, kind := "Action potential",
         direction := some "Horizontal: Looking right" }] := by
  decide!

/-- C9 amended: when an event starts at a non-cooldown sample from the idle
state, the recorded triggering channel is horizontal exactly when the
horizontal entry condition holds at that sample, even if the vertical
entry condition holds simultaneously; it is vertical only when the
horizontal condition does not hold. -/
theorem entry_trigger_channel (p : Params) (V H : List (Option ℚ))
    (le : Option ℚ) (evs : List Event) (i : ℕ)
    (hcool : cooldownActive le ((i : ℚ) * timeInterval) = false)
    (hentry : (optAbsGe (V.getD i none) p.vBase p.vThr ||
      optAbsGe (H.getD i none) p.hBase (3 * p.hThr)) = true) :
    ∃ tr, (detectStep p V H ⟨none, le, evs⟩ i).inEvent =
        some ((i : ℚ) * timeInterval, tr) ∧
      (tr = Trig.horizontal ↔
        optAbsGe (H.getD i none) p.hBase (3 * p.hThr) = true) := by
  simp only [List.getD_eq_getElem?_getD] at hentry
  cases hH : optAbsGe (H[i]?.getD none) p.hBase (3 * p.hThr) with
  | true =>
      exact ⟨Trig.horizontal,
        by simp [detectStep, hcool, List.getD_eq_getElem?_getD, hH], by simp [hH]⟩
  | false =>
      rw [hH, Bool.or_false] at hentry
      exact ⟨Trig.vertical,
        by simp [detectStep, hcool, List.getD_eq_getElem?_getD, hH, hentry],
        by simp [hH]⟩

/-- C9 amended witness: with both channels at 5 (vertical trigger 1,
horizontal trigger 1), the recorded channel is horizontal. -/
theorem entry_trigger_channel_witness :
    cooldownActive none (((0 : ℕ) : ℚ) * timeInterval) = false ∧
    (optAbsGe ([some (5 : ℚ)].getD 0 none) 0 1 ||
      optAbsGe ([some (5 : ℚ)].getD 0 none) 0 (3 * 1)) = true ∧
    ∃ tr, (detectStep ⟨0, 0, 1, 1⟩ [some 5] [some 5] ⟨none, none, []⟩ 0).inEvent =
        some (((0 : ℕ) : ℚ) * timeInterval, tr) ∧
      (tr = Trig.horizontal ↔
        optAbsGe ([some (5 : ℚ)].getD 0 none) 0 (3 * 1) = true) :=
  ⟨rfl, by decide!,
   entry_trigger_channel ⟨0, 0, 1, 1⟩ [some 5] [some 5] none [] 0 rfl (by decide!)⟩

/-- C6: when a vertical-triggered open event closes at sample i, exactly one
event is appended; it spans from the recorded start to i·interval − advance;
if its duration is at most 0.4 s it is a Blink with no direction, and
otherwise it is an Action potential whose direction string contains
"Looking up" when the smoothed vertical value at the sample nearest the end
time exceeds the vertical baseline, and contains "Looking down" otherwise
(a missing value does not exceed the baseline). -/
theorem vertical_event_classification (p : Params) (V H : List (Option ℚ))
    (s : ℚ) (le : Option ℚ) (evs : List Event) (i : ℕ)
    (hcool : cooldownActive le ((i : ℚ) * timeInterval) = false)
    (hnoentry : (optAbsGe (V.getD i none) p.vBase p.vThr ||
      optAbsGe (H.getD i none) p.hBase (3 * p.hThr)) = false)
    (hexit : optAbsLe (V.getD i none) p.vBase (3 * p.vThr) = true) :
    ∃ ev,
      (detectStep p V H ⟨some (s, Trig.vertical), le, evs⟩ i).events =
        evs ++ [ev] ∧
      ev.start = s ∧
      ev.stop = (i : ℚ) * timeInterval - timeAdvance ∧
      (ev.stop - ev.start ≤ thresholdDuration →
        ev.kind = "Blink" ∧ ev.direction = none) ∧
      (thresholdDuration < ev.stop - ev.start →
        ev.kind = "Action potential" ∧
        ∃ d, ev.direction = some d ∧
          (optGt (V.getD (nearestIdx V.length
              ((i : ℚ) * timeInterval - timeAdvance)) none) p.vBase = true →
            strContainsSub d ("Looking up") = true) ∧
          (optGt (V.getD (nearestIdx V.length
              ((i : ℚ) * timeInterval - timeAdvance)) none) p.vBase = false →
            strContainsSub d ("Looking down") = true)) := by
  have hor := hnoentry
  rw [Bool.or_eq_false_iff] at hor
  obtain ⟨hVf, hHf⟩ := hor
  refine ⟨mkVerticalEvent p V H V.length s ((i : ℚ) * timeInterval),
    ?_, by simp, by simp, ?_, ?_⟩
  · have hVf' : optAbsGe (V[i]?.getD none) p.vBase p.vThr = false := by
      rw [← List.getD_eq_getElem?_getD]; exact hVf
    have hHf' : optAbsGe (H[i]?.getD none) p.hBase (3 * p.hThr) = false := by
      rw [← List.getD_eq_getElem?_getD]; exact hHf
    have hexit' : optAbsLe (V[i]?.getD none) p.vBase (3 * p.vThr) = true := by
      rw [← List.getD_eq_getElem?_getD]; exact hexit
    simp [detectStep, hcool, List.getD_eq_getElem?_getD, hVf', hHf', hexit']
  · intro hle
    rw [mkVerticalEvent_stop, mkVerticalEvent_start] at hle
    have hc : (i : ℚ) * timeInterval - timeAdvance - s ≤ thresholdDuration := by
      linarith
    constructor
    · simp only [mkVerticalEvent]
      rw [if_pos hc]
    · simp only [mkVerticalEvent]
      rw [if_pos hc]
  · intro hgt
    rw [mkVerticalEvent_stop, mkVerticalEvent_start] at hgt
    have hc : ¬ ((i : ℚ) * timeInterval - timeAdvance - s ≤ thresholdDuration) := by
      linarith
    constructor
    · simp only [mkVerticalEvent]
      rw [if_neg hc]
    · simp only [mkVerticalEvent]
      rw [if_neg hc]
      refine ⟨_, rfl, ?_, ?_⟩
      · intro hup
        rw [hup, if_pos rfl]
        cases hb : optAbsGe (H.getD (nearestIdx V.length
            ((i : ℚ) * timeInterval - timeAdvance)) none) p.hBase p.hThr with
        | false => rw [if_neg Bool.false_ne_true]; decide!
        | true =>
            rw [if_pos rfl]
            cases hg : optGt (H.getD (nearestIdx V.length
                ((i : ℚ) * timeInterval - timeAdvance)) none) p.hBase with
            | false => rw [if_neg Bool.false_ne_true]; decide!
            | true => rw [if_pos rfl]; decide!
      · intro hdown
        rw [hdown, if_neg Bool.false_ne_true]
        cases hb : optAbsGe (H.getD (nearestIdx V.length
            ((i : ℚ) * timeInterval - timeAdvance)) none) p.hBase p.hThr with
        | false => rw [if_neg Bool.false_ne_true]; decide!
        | true =>
            rw [if_pos rfl]
            cases hg : optGt (H.getD (nearestIdx V.length
                ((i : ℚ) * timeInterval - timeAdvance)) none) p.hBase with
            | false => rw [if_neg Bool.false_ne_true]; decide!
            | true => rw [if_pos rfl]; decide!

/-- C6 witness: an open vertical event closing one sample after it began
(duration below 0.4 s) yields a Blink with no direction. -/
theorem vertical_event_classification_witness :
    cooldownActive none (((1 : ℕ) : ℚ) * timeInterval) = false ∧
    (optAbsGe ([some 0, some 0].getD 1 none) (0 : ℚ) 1 ||
      optAbsGe ([some 0, some 0].getD 1 none) (0 : ℚ) (3 * 1)) = false ∧
    optAbsLe ([some 0, some 0].getD 1 none) (0 : ℚ) (3 * 1) = true ∧
    ∃ ev,
      (detectStep ⟨0, 0, 1, 1⟩ [some 0, some 0] [some 0, some 0]
        ⟨some (0, Trig.vertical), none, []⟩ 1).events = [] ++ [ev] ∧
      ev.start = 0 ∧
      ev.stop = ((1 : ℕ) : ℚ) * timeInterval - timeAdvance ∧
      (ev.stop - ev.start ≤ thresholdDuration →
        ev.kind = "Blink" ∧ ev.direction = none) ∧
      (thresholdDuration < ev.stop - ev.start →
        ev.kind = "Action potential" ∧
        ∃ d, ev.direction = some d ∧
          (optGt ([some 0, some 0].getD (nearestIdx 2
              (((1 : ℕ) : ℚ) * timeInterval - timeAdvance)) none) 0 = true →
            strContainsSub d ("Looking up") = true) ∧
          (optGt ([some 0, some 0].getD (nearestIdx 2
              (((1 : ℕ) : ℚ) * timeInterval - timeAdvance)) none) 0 = false →
            strContainsSub d ("Looking down") = true)) :=
  ⟨rfl, by decide!, by decide!,
   vertical_event_classification ⟨0, 0, 1, 1⟩ [some 0, some 0] [some 0, some 0]
     0 none [] 1 rfl (by decide!) (by decide!)⟩

section StepShape

/-- An optAbsGe comparison can only succeed on a present value. -/
lemma optAbsGe_some (x? : Option ℚ) (b t : ℚ)
    (h : optAbsGe x? b t = true) : ∃ x, x? = some x := by
  cases x? with
  | none => simp [optAbsGe] at h
  | some x => exact ⟨x, rfl⟩

/-- Shape of one detector step: it either leaves the state unchanged, or
opens an event at the current sample time (from idle, with the entry
condition holding), or closes the open event, appending exactly one event
that starts at the recorded start time and stops at the current time minus
the advance. -/
lemma detectStep_cases (p : Params) (V H : List (Option ℚ)) (st : DetState)
    (k : ℕ) :
    detectStep p V H st k = st ∨
    (st.inEvent = none ∧
      (optAbsGe (V.getD k none) p.vBase p.vThr ||
        optAbsGe (H.getD k none) p.hBase (3 * p.hThr)) = true ∧
      ∃ tr, detectStep p V H st k =
        { st with inEvent := some ((k : ℚ) * timeInterval, tr) }) ∨
    (∃ s tr ev, st.inEvent = some (s, tr) ∧ ev.start = s ∧
      ev.stop = (k : ℚ) * timeInterval - timeAdvance ∧
      detectStep p V H st k =
        { inEvent := none, lastEnd := some ev.stop,
          events := st.events ++ [ev] }) := by
  cases h1 : cooldownActive st.lastEnd ((k : ℚ) * timeInterval) with
  | true => exact Or.inl (by simp [detectStep, h1, -List.getD_eq_getElem?_getD])
  | false =>
    cases hV : optAbsGe (V.getD k none) p.vBase p.vThr with
    | true =>
      cases hie : st.inEvent with
      | none =>
          exact Or.inr (Or.inl ⟨rfl, by simp [hV],
            (if optAbsGe (H.getD k none) p.hBase (3 * p.hThr) then
              Trig.horizontal else Trig.vertical),
            by simp [detectStep, h1, hV, hie, -List.getD_eq_getElem?_getD]⟩)
      | some pr =>
          exact Or.inl (by simp [detectStep, h1, hV, hie,
            -List.getD_eq_getElem?_getD])
    | false =>
      cases hH : optAbsGe (H.getD k none) p.hBase (3 * p.hThr) with
      | true =>
        cases hie : st.inEvent with
        | none =>
            exact Or.inr (Or.inl ⟨rfl, by simp [hH],
              (if optAbsGe (H.getD k none) p.hBase (3 * p.hThr) then
                Trig.horizontal else Trig.vertical),
              by simp [detectStep, h1, hV, hH, hie, -List.getD_eq_getElem?_getD]⟩)
        | some pr =>
            exact Or.inl (by simp [detectStep, h1, hV, hH, hie,
              -List.getD_eq_getElem?_getD])
      | false =>
        cases hie : st.inEvent with
        | none =>
            exact Or.inl (by simp [detectStep, h1, hV, hH, hie,
              -List.getD_eq_getElem?_getD])
        | some pr =>
          obtain ⟨s0, tr0⟩ := pr
          cases tr0 with
          | horizontal =>
            cases hL : optAbsLe (H.getD k none) p.hBase (3 * p.hThr) with
            | true =>
                exact Or.inr (Or.inr ⟨s0, Trig.horizontal,
                  mkHorizontalEvent p H V.length s0 ((k : ℚ) * timeInterval),
                  rfl, by simp, by simp,
                  by simp [detectStep, h1, hV, hH, hie, hL,
                    -List.getD_eq_getElem?_getD]⟩)
            | false =>
                exact Or.inl (by simp [detectStep, h1, hV, hH, hie, hL,
                  -List.getD_eq_getElem?_getD])
          | vertical =>
            cases hL : optAbsLe (V.getD k none) p.vBase (3 * p.vThr) with
            | true =>
                exact Or.inr (Or.inr ⟨s0, Trig.vertical,
                  mkVerticalEvent p V H V.length s0 ((k : ℚ) * timeInterval),
                  rfl, by simp, by simp,
                  by simp [detectStep, h1, hV, hH, hie, hL,
                    -List.getD_eq_getElem?_getD]⟩)
            | false =>
                exact Or.inl (by simp [detectStep, h1, hV, hH, hie, hL,
                  -List.getD_eq_getElem?_getD])

/-- Start times of opened events are sample times of already-processed
indices, and one fold step keeps every emitted event within the
interval-advance bound. -/
lemma foldl_stop_inv (p : Params) (V H : List (Option ℚ)) (n : ℕ) :
    (∀ s tr, ((List.range n).foldl (detectStep p V H)
        { inEvent := none, lastEnd := none, events := [] }).inEvent =
          some (s, tr) →
      ∃ j, j < n ∧ s = (j : ℚ) * timeInterval) ∧
    (∀ ev ∈ ((List.range n).foldl (detectStep p V H)
        { inEvent := none, lastEnd := none, events := [] }).events,
      ev.start - (timeAdvance - timeInterval) ≤ ev.stop) := by
  induction n with
  | zero => exact ⟨by simp, by simp⟩
  | succ m ih =>
      rw [List.range_succ, List.foldl_append]
      obtain ⟨ihin, ihev⟩ := ih
      rcases detectStep_cases p V H
          ((List.range m).foldl (detectStep p V H)
            { inEvent := none, lastEnd := none, events := [] }) m with
        heq | ⟨hie, hcond, tr, heq⟩ | ⟨s0, tr0, ev0, hie, hs, hstop, heq⟩
      · rw [show List.foldl (detectStep p V H) _ [m] =
            detectStep p V H _ m from rfl, heq]
        refine ⟨fun s tr h => ?_, ihev⟩
        obtain ⟨j, hj, hjs⟩ := ihin s tr h
        exact ⟨j, Nat.lt_succ_of_lt hj, hjs⟩
      · rw [show List.foldl (detectStep p V H) _ [m] =
            detectStep p V H _ m from rfl, heq]
        constructor
        · intro s tr h
          simp only at h
          obtain ⟨h1, -⟩ := Prod.mk.injEq .. ▸ Option.some.injEq .. ▸ h
          exact ⟨m, Nat.lt_succ_self m, h1.symm⟩
        · simpa using ihev
      · rw [show List.foldl (detectStep p V H) _ [m] =
            detectStep p V H _ m from rfl, heq]
        constructor
        · intro s tr h
          simp at h
        · intro ev hev
          simp only [List.mem_append, List.mem_singleton] at hev
          rcases hev with hev | hev
          · exact ihev ev hev
          · subst hev
            obtain ⟨j, hj, hjs⟩ := ihin s0 tr0 hie
            rw [hs, hstop, hjs]
            have hcast : (j : ℚ) + 1 ≤ (m : ℚ) := by exact_mod_cast hj
            simp only [timeInterval, timeAdvance]
            linarith

end StepShape

/-- C4 counterexample: on tbl16 the only emitted event has
end_time = −17/500 < start_time = 7/500, refuting end_time ≥ start_time. -/
theorem event_stop_lt_start_cex :
    analyze tbl16 = Except.ok
      [{ start := 7/500, stop := -17/500, kind := "Blink", direction := none }] ∧
    (-17 : ℚ)/500 < 7/500 := by
  decide!

/-- C4 amended: every emitted event satisfies
end_time ≥ start_time − (time_advance − time_interval), i.e. the end can
precede the start by at most 0.048 s; the original bound end_time ≥
start_time holds only when the closing sample is at least 0.05 s after the
start. -/
theorem event_stop_lower_bound (p : Params) (V H : List (Option ℚ)) :
    ∀ ev ∈ (runDetect p V H).events,
      ev.start - (timeAdvance - timeInterval) ≤ ev.stop := by
  intro ev hev
  exact (foldl_stop_inv p V H V.length).2 ev hev

/-- C4 amended witness: a two-sample run emits one event meeting the bound
with equality. -/
theorem event_stop_lower_bound_witness :
    ({ start := 0, stop := -6/125, kind := "Blink", direction := none } : Event) ∈
      (runDetect ⟨0, 0, 1, 1⟩ [some 1, some 0] [some 0, some 0]).events ∧
    ({ start := 0, stop := -6/125, kind := "Blink", direction := none } : Event).start -
        (timeAdvance - timeInterval) ≤
      ({ start := 0, stop := -6/125, kind := "Blink", direction := none } : Event).stop :=
  ⟨by decide!,
   event_stop_lower_bound ⟨0, 0, 1, 1⟩ [some 1, some 0] [some 0, some 0] _ (by decide!)⟩

/-- C5 failing input, evaluated: after the first event ends at exactly 0,
the Python guard `if last_event_end_time and ...` is falsy, the cooldown is
skipped (cooldownActive with a zero last end is false), and the second
event starts at 19/250 = 0.076 s, well inside the 0.5 s cooldown window of
the first event's end — the adjacent-gap invariant fails, contradicting
the script's own comment that detection is skipped within the cooldown
period after the last event. -/
theorem cooldown_skipped_at_zero_end_time :
    analyze tbl61 = Except.ok
      [{ start := 1/50, stop := 0, kind := "Blink", direction := none },
       { start := 19/250, stop := 7/125, kind := "Blink", direction := none }] ∧
    cooldownActive (some 0) (13/250) = false ∧
    (19 : ℚ)/250 < 0 + cooldownTime := by
  decide!

/-- Start times recorded by the detector over smoothed channels are sample
times of indices whose centered window fits inside the data. -/
lemma foldl_start_inv (p : Params) (d0 d1 : List ℚ)
    (hlen : d1.length = d0.length) (n : ℕ) :
    (∀ s tr, ((List.range n).foldl
        (detectStep p (movingAverage d0 windowSize) (movingAverage d1 windowSize))
        { inEvent := none, lastEnd := none, events := [] }).inEvent =
          some (s, tr) →
      ∃ j, 7 ≤ j ∧ j + 7 < d0.length ∧ s = (j : ℚ) * timeInterval) ∧
    (∀ ev ∈ ((List.range n).foldl
        (detectStep p (movingAverage d0 windowSize) (movingAverage d1 windowSize))
        { inEvent := none, lastEnd := none, events := [] }).events,
      ∃ j, 7 ≤ j ∧ j + 7 < d0.length ∧ ev.start = (j : ℚ) * timeInterval) := by
  induction n with
  | zero => exact ⟨by simp, by simp⟩
  | succ m ih =>
      rw [List.range_succ, List.foldl_append]
      obtain ⟨ihin, ihev⟩ := ih
      rcases detectStep_cases p
          (movingAverage d0 windowSize) (movingAverage d1 windowSize)
          ((List.range m).foldl
            (detectStep p (movingAverage d0 windowSize) (movingAverage d1 windowSize))
            { inEvent := none, lastEnd := none, events := [] }) m with
        heq | ⟨hie, hcond, tr, heq⟩ | ⟨s0, tr0, ev0, hie, hs, hstop, heq⟩
      · rw [show List.foldl
            (detectStep p (movingAverage d0 windowSize) (movingAverage d1 windowSize))
            _ [m] = detectStep p (movingAverage d0 windowSize)
              (movingAverage d1 windowSize) _ m from rfl, heq]
        exact ⟨ihin, ihev⟩
      · rw [show List.foldl
            (detectStep p (movingAverage d0 windowSize) (movingAverage d1 windowSize))
            _ [m] = detectStep p (movingAverage d0 windowSize)
              (movingAverage d1 windowSize) _ m from rfl, heq]
        have hgood : 7 ≤ m ∧ m + 7 < d0.length := by
          rw [Bool.or_eq_true] at hcond
          rcases hcond with hV | hH
          · obtain ⟨x, hx⟩ := optAbsGe_some _ _ _ hV
            have hb := movingAverage_getD_some d0 windowSize m x hx
            revert hb
            norm_num [windowSize]
          · obtain ⟨x, hx⟩ := optAbsGe_some _ _ _ hH
            have hb := movingAverage_getD_some d1 windowSize m x hx
            rw [hlen] at hb
            revert hb
            norm_num [windowSize]
        constructor
        · intro s tr h
          simp only at h
          obtain ⟨h1, -⟩ := Prod.mk.injEq .. ▸ Option.some.injEq .. ▸ h
          exact ⟨m, hgood.1, hgood.2, h1.symm⟩
        · simpa using ihev
      · rw [show List.foldl
            (detectStep p (movingAverage d0 windowSize) (movingAverage d1 windowSize))
            _ [m] = detectStep p (movingAverage d0 windowSize)
              (movingAverage d1 windowSize) _ m from rfl, heq]
        constructor
        · intro s tr h
          simp at h
        · intro ev hev
          simp only [List.mem_append, List.mem_singleton] at hev
          rcases hev with hev | hev
          · exact ihev ev hev
          · subst hev
            obtain ⟨j, hj1, hj2, hjs⟩ := ihin s0 tr0 hie
            exact ⟨j, hj1, hj2, by rw [hs, hjs]⟩

/-- C10: with the window-15 centered smoother, both smoothed channels are
missing at the first 7 and last 7 sample positions, every comparison with a
missing value is false, so the entry condition never fires there: every
emitted event starts at a sample index j with 7 ≤ j and j + 7 < n. -/
theorem event_start_not_near_edges (tbl : InputTable)
    (hlen : tbl.voltage0.length = tbl.voltage.length)
    (evs : List Event) (hok : analyze tbl = Except.ok evs) :
    ∀ ev ∈ evs, ∃ j, 7 ≤ j ∧ j + 7 < tbl.voltage.length ∧
      ev.start = (j : ℚ) * timeInterval := by
  by_cases hcols : (requiredColumns.all
      (fun c => (tbl.columns.map normalizeCol).contains c)) = true
  · simp only [analyze, hcols, if_true] at hok
    obtain rfl : (runDetect (paramsOf tbl)
        (movingAverage tbl.voltage windowSize)
        (movingAverage tbl.voltage0 windowSize)).events = evs :=
      Except.ok.inj hok
    intro ev hev
    exact (foldl_start_inv (paramsOf tbl) tbl.voltage tbl.voltage0 hlen
      (movingAverage tbl.voltage windowSize).length).2 ev hev
  · rw [Bool.not_eq_true] at hcols
    simp only [analyze, hcols, Bool.false_eq_true, if_false] at hok
    cases hok

/-- C10 witness: the single event of tbl16 starts at sample 7 of 16. -/
theorem event_start_not_near_edges_witness :
    tbl16.voltage0.length = tbl16.voltage.length ∧
    analyze tbl16 = Except.ok [ev16] ∧
    ∀ ev ∈ [ev16],
      ∃ j, 7 ≤ j ∧ j + 7 < tbl16.voltage.length ∧
        ev.start = (j : ℚ) * timeInterval :=
  ⟨rfl, by decide!,
   event_start_not_near_edges tbl16 rfl [ev16] (by decide!)⟩

end EOG
